import Mathlib

/-!
Shallow embedding of the Timeline Scale & Region Layout Engine from
`src/components/video-editor/timeline/TimelineEditor.tsx`.

JavaScript numbers are modelled as exact rationals (`ℚ`); `Math.floor`,
`Math.ceil`, `Math.round`, `Math.min` and `Math.max` are modelled by exact
operations on `ℚ`. The irreducibility markers of the library's rational
arithmetic are reset so that concrete runs of the model evaluate by `decide`.
-/

set_option allowUnsafeReducibility true

attribute [semireducible] Rat.add Rat.mul Rat.sub Rat.div Rat.inv Rat.neg

namespace Timeline

/-- `Math.floor`, as an integer-valued map on exact rationals. -/
def jsFloor (q : ℚ) : ℤ := Rat.floor q

/-- `Math.ceil`, computed as `-⌊-q⌋` (the smallest integer `≥ q`). -/
def jsCeil (q : ℚ) : ℤ := -Rat.floor (-q)

/-- `Math.round`: round half toward positive infinity, as a rational-valued
map (JavaScript keeps the result in the number type). -/
def jsRound (q : ℚ) : ℚ := (jsFloor (q + 1/2) : ℤ)

/-- `Math.max` on two JavaScript numbers. -/
def jsMax (a b : ℚ) : ℚ := if a ≤ b then b else a

/-- `Math.min` on two JavaScript numbers. -/
def jsMin (a b : ℚ) : ℚ := if a ≤ b then a else b

/-- Truncation toward zero, as used by the JavaScript `%` operator. -/
def jsTrunc (q : ℚ) : ℤ := if 0 ≤ q then jsFloor q else jsCeil q

/-- The JavaScript remainder operator `a % b` (sign follows the dividend). -/
def jsMod (a b : ℚ) : ℚ := a - b * (jsTrunc (a / b) : ℤ)

/-- The scaled integer chosen by `Number.prototype.toFixed(f)` for a
non-negative argument: the numerator of the multiple of `10 ^ (-f)` nearest
to `x`, ties resolved upward. -/
def jsToFixedNum (x : ℚ) (f : ℕ) : ℤ := jsFloor (x * 10 ^ f + 1/2)

def zeroChar : Char := '0'

/-- `String.prototype.padStart(n, "0")` specialised to a single padding char. -/
def jsPadTo (s : String) (n : ℕ) (c : Char) : String :=
  String.mk (List.replicate (n - s.data.length) c ++ s.data)

/-- Digit string of `x` left-padded with zeros to `f` characters; this is the
fraction part produced by `toFixed(f)` (recovered in the source by
`secondsWithFraction.split "."`). -/
def padZeros (f : ℕ) (x : ℤ) : String := jsPadTo (toString x) f zeroChar

/-- `const TARGET_MARKER_COUNT = 12`. -/
def TARGET_MARKER_COUNT : ℚ := 12

/-- `const SCALE_CANDIDATES = [...]`: `(intervalSeconds, gridSeconds)` pairs. -/
def SCALE_CANDIDATES : List (ℚ × ℚ) :=
  [(1/4, 1/20), (1/2, 1/10), (1, 1/4), (2, 1/2), (5, 1), (10, 2), (15, 3),
   (30, 5), (60, 10), (120, 20), (300, 30), (600, 60), (900, 120),
   (1800, 180), (3600, 300)]

structure TimelineScaleConfig where
  intervalMs : ℚ
  gridMs : ℚ
  minItemDurationMs : ℚ
  defaultItemDurationMs : ℚ
  minVisibleRangeMs : ℚ
deriving DecidableEq

/-- Predicate used by `SCALE_CANDIDATES.find(...)` in `calculateTimelineScale`:
when the duration is non-positive every candidate matches, otherwise the
candidate must keep `durationSeconds / intervalSeconds` within the target. -/
def candidateOk (durationSeconds : ℚ) (c : ℚ × ℚ) : Bool :=
  if durationSeconds ≤ 0 then true
  else decide (durationSeconds / c.1 ≤ TARGET_MARKER_COUNT)

/-- The candidate selected in `calculateTimelineScale`; the `getD` default is
`SCALE_CANDIDATES[SCALE_CANDIDATES.length - 1] = (3600, 300)`. -/
def selectedCandidate (durationSeconds : ℚ) : ℚ × ℚ :=
  (SCALE_CANDIDATES.find? (candidateOk durationSeconds)).getD (3600, 300)

/-- `totalMs = Math.max(0, Math.round(videoDuration * 1000))`. -/
def totalMsOf (videoDuration : ℚ) : ℚ := jsMax 0 (jsRound (videoDuration * 1000))

/-- `calculateTimelineScale` from the source. -/
def calculateTimelineScale (durationSeconds : ℚ) : TimelineScaleConfig :=
  let totalMs := totalMsOf durationSeconds
  let c := selectedCandidate durationSeconds
  let intervalMs := jsRound (c.1 * 1000)
  let gridMs := jsRound (c.2 * 1000)
  let minItemDurationMs : ℚ := 1
  let defaultItemDurationMs :=
    jsMin (jsMax minItemDurationMs (intervalMs * 2))
      (if 0 < totalMs then totalMs else intervalMs * 2)
  let minVisibleRangeMs :=
    if 0 < totalMs then
      jsMin (jsMax (jsMax (intervalMs * 3) (minItemDurationMs * 6)) 1000) totalMs
    else jsMax (jsMax (intervalMs * 3) (minItemDurationMs * 6)) 1000
  ⟨intervalMs, gridMs, minItemDurationMs, defaultItemDurationMs, minVisibleRangeMs⟩

/-- `ZoomRegion` (from `../types`): stable id plus extent in milliseconds. -/
structure ZoomRegion where
  id : String
  startMs : ℚ
  endMs : ℚ
deriving DecidableEq

/-- `Span` from `dnd-timeline`: `{start, end}`. The `end` field is renamed to
`stop` because `end` is a Lean keyword. -/
structure Span where
  start : ℚ
  stop : ℚ
deriving DecidableEq

/-- `safeMinDurationMs = totalMs > 0 ? Math.min(minItemDurationMs, totalMs)
: minItemDurationMs`. -/
def safeMinDuration (minItemDurationMs totalMs : ℚ) : ℚ :=
  if 0 < totalMs then jsMin minItemDurationMs totalMs else minItemDurationMs

/-- Body of the region-normalization effect in `TimelineEditor`, for one
region: the `(normalizedStart, normalizedEnd)` pair it computes. -/
def normalizeRegion (startMs endMs totalMs minDur : ℚ) : ℚ × ℚ :=
  let clampedStart := jsMax 0 (jsMin startMs totalMs)
  let minEnd := clampedStart + minDur
  let clampedEnd := jsMin totalMs (jsMax minEnd endMs)
  let normalizedStart := jsMax 0 (jsMin clampedStart (totalMs - minDur))
  let normalizedEnd := jsMax minEnd (jsMin clampedEnd totalMs)
  (normalizedStart, normalizedEnd)

/-- `hasOverlap` from `TimelineEditor`: true when `newSpan` is rejected against
the region set (snap-gap of at most 2ms on either side, or true overlap). -/
def hasOverlap (zoomRegions : List ZoomRegion) (newSpan : Span)
    (excludeId : Option String) : Bool :=
  zoomRegions.any fun region =>
    if excludeId = some region.id then false
    else
      let gapBefore := newSpan.start - region.endMs
      let gapAfter := region.startMs - newSpan.stop
      if 0 < gapBefore ∧ gapBefore ≤ 2 then true
      else if 0 < gapAfter ∧ gapAfter ≤ 2 then true
      else decide (¬(newSpan.stop ≤ region.startMs ∨ region.endMs ≤ newSpan.start))

/-- Comparison used by `[...zoomRegions].sort((a, b) => a.startMs - b.startMs)`. -/
def regionLE (a b : ZoomRegion) : Prop := a.startMs ≤ b.startMs

instance instDecRegionLE : DecidableRel regionLE :=
  fun a b => inferInstanceAs (Decidable (a.startMs ≤ b.startMs))

instance instTotalRegionLE : IsTotal ZoomRegion regionLE :=
  ⟨fun a b => le_total a.startMs b.startMs⟩

instance instTransRegionLE : IsTrans ZoomRegion regionLE :=
  ⟨fun _ _ _ h₁ h₂ => le_trans h₁ h₂⟩

/-- The regions sorted ascending by `startMs` (JavaScript `sort` is stable;
insertion sort realises the same stable reordering). -/
def sortByStart (zoomRegions : List ZoomRegion) : List ZoomRegion :=
  List.insertionSort regionLE zoomRegions

/-- The scan loop of `handleAddZoom`: walk the regions (sorted by `startMs`)
advancing `startPos` until the candidate slot fits before the next region. -/
def scanStartPos (defaultDuration : ℚ) : ℚ → List ZoomRegion → ℚ
  | startPos, [] => startPos
  | startPos, region :: rest =>
    if startPos + defaultDuration ≤ region.startMs then startPos
    else scanStartPos defaultDuration (jsMax startPos region.endMs) rest

/-- `handleAddZoom` from `TimelineEditor`: `some span` models the
`onZoomAdded(span)` call, `none` the early returns / "No space available". -/
def handleAddZoom (videoDuration : ℚ) (zoomRegions : List ZoomRegion) :
    Option Span :=
  let totalMs := totalMsOf videoDuration
  if videoDuration = 0 ∨ totalMs = 0 then none
  else
    let minItem := (calculateTimelineScale videoDuration).minItemDurationMs
    let defaultDuration := jsMin (jsMax 3000 (safeMinDuration minItem totalMs)) totalMs
    if defaultDuration ≤ 0 then none
    else
      let startPos := scanStartPos defaultDuration 0 (sortByStart zoomRegions)
      if totalMs < startPos + defaultDuration then none
      else some ⟨startPos, startPos + defaultDuration⟩

/-- `maxTime = videoDurationMs > 0 ? videoDurationMs : range.end`. -/
def markerMaxTime (videoDurationMs rangeEnd : ℚ) : ℚ :=
  if 0 < videoDurationMs then videoDurationMs else rangeEnd

/-- `visibleStart = Math.max(0, Math.min(range.start, maxTime))`. -/
def markerVisibleStart (rangeStart rangeEnd videoDurationMs : ℚ) : ℚ :=
  jsMax 0 (jsMin rangeStart (markerMaxTime videoDurationMs rangeEnd))

/-- The `for (let time = firstMarker; time <= maxTime; time += intervalMs)`
loop: the list of visited `time` values (exact rational stepping). -/
def markerLoopTimes (intervalMs firstMarker maxTime : ℚ) : List ℚ :=
  let count : ℕ :=
    if 0 < intervalMs ∧ firstMarker ≤ maxTime then
      (jsFloor ((maxTime - firstMarker) / intervalMs)).toNat + 1
    else 0
  (List.range count).map fun k => firstMarker + (k : ℚ) * intervalMs

/-- The marker times computed by the `markers` memo of `TimelineAxis`: the
`Set` of rounded times (modelled by `dedup`), filtered to `<= maxTime` and
sorted ascending. -/
def markerTimes (intervalMs rangeStart rangeEnd videoDurationMs : ℚ) : List ℚ :=
  if intervalMs ≤ 0 then []
  else
    let maxTime := markerMaxTime videoDurationMs rangeEnd
    let visibleStart := markerVisibleStart rangeStart rangeEnd videoDurationMs
    let visibleEnd := jsMin rangeEnd maxTime
    let firstMarker := ((jsCeil (visibleStart / intervalMs) : ℤ) : ℚ) * intervalMs
    let loopTimes := markerLoopTimes intervalMs firstMarker maxTime
    let collected :=
      (loopTimes.filter fun t => decide (visibleStart ≤ t ∧ t ≤ visibleEnd)).map jsRound
    let withStart :=
      if visibleStart ≤ maxTime then collected ++ [jsRound visibleStart] else collected
    let withEnd :=
      if 0 < videoDurationMs then withStart ++ [jsRound videoDurationMs] else withStart
    List.insertionSort (· ≤ ·) (withEnd.dedup.filter fun t => decide (t ≤ maxTime))

/-- `fractionalDigits = intervalMs < 250 ? 2 : intervalMs < 1000 ? 1 : 0`. -/
def fractionalDigitsFor (intervalMs : ℚ) : ℕ :=
  if intervalMs < 250 then 2 else if intervalMs < 1000 then 1 else 0

/-- `formatTimeLabel` from the source. The `toFixed`/`split` pair of the
fractional branch is realised by `jsToFixedNum` (the rounded scaled integer):
`toFixed(f)` renders `toString (n / 10 ^ f) ++ "." ++ padZeros f (n % 10 ^ f)`
and the `split "."` destructuring recovers exactly these two parts. -/
def formatTimeLabel (milliseconds intervalMs : ℚ) : String :=
  let totalSeconds := milliseconds / 1000
  let hours : ℤ := jsFloor (totalSeconds / 3600)
  let minutes : ℤ := jsFloor (jsMod totalSeconds 3600 / 60)
  let seconds : ℚ := jsMod totalSeconds 60
  let fractionalDigits := fractionalDigitsFor intervalMs
  if 0 < hours then
    toString hours ++ ":" ++ jsPadTo (toString minutes) 2 zeroChar ++ ":" ++
      jsPadTo (toString (jsFloor seconds)) 2 zeroChar
  else if 0 < fractionalDigits then
    let n := jsToFixedNum seconds fractionalDigits
    let wholeSeconds := toString (n / 10 ^ fractionalDigits)
    let fraction := padZeros fractionalDigits (n % 10 ^ fractionalDigits)
    toString minutes ++ ":" ++ jsPadTo wholeSeconds 2 zeroChar ++ "." ++ fraction
  else
    toString minutes ++ ":" ++ jsPadTo (toString (jsFloor seconds)) 2 zeroChar

/-- The full marker list of `TimelineAxis`: times with their labels. -/
def markers (intervalMs rangeStart rangeEnd videoDurationMs : ℚ) :
    List (ℚ × String) :=
  (markerTimes intervalMs rangeStart rangeEnd videoDurationMs).map
    fun t => (t, formatTimeLabel t intervalMs)

/-- Lexicographic order (non-strict) on character lists, by code point. -/
def lexLe : List Char → List Char → Prop
  | [], _ => True
  | _ :: _, [] => False
  | a :: as, b :: bs => a < b ∨ (a = b ∧ lexLe as bs)

def decLexLe : (l m : List Char) → Decidable (lexLe l m)
  | [], _ => isTrue trivial
  | _ :: _, [] => isFalse id
  | a :: as, b :: bs =>
    haveI : Decidable (lexLe as bs) := decLexLe as bs
    inferInstanceAs (Decidable (a < b ∨ (a = b ∧ lexLe as bs)))

instance instDecLexLe (l m : List Char) : Decidable (lexLe l m) := decLexLe l m

/-- Shortlex (length, then lexicographic) order on strings. On the label
strings produced by `formatTimeLabel` this coincides with the temporal order
of the displayed timestamps. -/
def shortlexLe (s t : String) : Prop :=
  s.data.length < t.data.length ∨
    (s.data.length = t.data.length ∧ lexLe s.data t.data)

/-- The same order on raw character lists. -/
def shortlexData (u v : List Char) : Prop :=
  u.length < v.length ∨ (u.length = v.length ∧ lexLe u v)

/-! ### Bridging lemmas between the JavaScript-style operations and Mathlib -/

theorem jsFloor_eq (q : ℚ) : jsFloor q = ⌊q⌋ := by
  rw [jsFloor, Rat.floor_def']; exact Rat.floor_def.symm

theorem jsCeil_eq (q : ℚ) : jsCeil q = ⌈q⌉ := by
  have h : Rat.floor (-q) = ⌊-q⌋ := jsFloor_eq (-q)
  rw [jsCeil, h, Int.floor_neg, neg_neg]

theorem jsMax_eq (a b : ℚ) : jsMax a b = max a b := by rw [max_def]; rfl

theorem jsMin_eq (a b : ℚ) : jsMin a b = min a b := by rw [min_def]; rfl

theorem jsRound_mono {a b : ℚ} (h : a ≤ b) : jsRound a ≤ jsRound b := by
  rw [jsRound, jsRound, jsFloor_eq, jsFloor_eq]
  exact_mod_cast Int.floor_le_floor (by linarith)

/-! ### Claims about the Region Normalizer at Scenario 5 -/

/-- C1: with region `{5000, 8000}`, `totalMs = 3000`, `minItemDurationMs = 1`,
the normalization step emits `{2999, 3001}` — its `endMs` exceeds `totalMs`,
contradicting the claimed bound `endMs ≤ totalMs` and the expected
`{2999, 3000}`. -/
theorem normalizeRegion_scenario5 :
    normalizeRegion 5000 8000 3000 1 = (2999, 3001) ∧
      (3000 : ℚ) < (normalizeRegion 5000 8000 3000 1).2 := by decide

/-- C2: the normalization step is not idempotent: at region `{5000, 8000}`,
`totalMs = 3000`, `minItemDurationMs = 1`, a second application changes the
result again (`{2999, 3001}` becomes `{2999, 3000}`). -/
theorem normalizeRegion_twice_ne_once :
    normalizeRegion 5000 8000 3000 1 = (2999, 3001) ∧
      normalizeRegion 2999 3001 3000 1 = (2999, 3000) ∧
      ((2999 : ℚ), (3001 : ℚ)).2 - ((2999 : ℚ), (3000 : ℚ)).2 = 1 := by decide

/-- C7: against regions `[{0,1000}, {1005,2000}]` with no `excludeId`, the
candidate `{1000, 1005}` is accepted (`hasOverlap` returns `false`):
boundary touch is not an overlap, and both gaps (0 and 0) are outside the
`(0, 2]` snap-rejection interval. -/
theorem hasOverlap_boundary_touch_accepted :
    hasOverlap [⟨"a", 0, 1000⟩, ⟨"b", 1005, 2000⟩] ⟨1000, 1005⟩ none = false := by
  decide

/-- C10: with `videoDuration = 10` s (`totalMs = 10000`) and regions
`[{0,1000}, {4002,5000}]`, the placement scan emits `{1000, 4000}`, yet
`hasOverlap` rejects that very span (the 2 ms gap to `{4002,5000}` falls in
the snap-rejection interval). -/
theorem handleAddZoom_span_rejected_by_hasOverlap :
    handleAddZoom 10 [⟨"a", 0, 1000⟩, ⟨"b", 4002, 5000⟩] = some ⟨1000, 4000⟩ ∧
      hasOverlap [⟨"a", 0, 1000⟩, ⟨"b", 4002, 5000⟩] ⟨1000, 4000⟩ none = true := by
  decide

/-! ### Marker generator: short-circuit on non-positive interval -/

/-- C8: for a non-positive `intervalMs` the marker generator returns the
empty list (the early return precedes every division by `intervalMs`). -/
theorem markerTimes_nil_of_nonpos_interval
    (intervalMs rangeStart rangeEnd videoDurationMs : ℚ) (h : intervalMs ≤ 0) :
    markerTimes intervalMs rangeStart rangeEnd videoDurationMs = [] := by
  simp only [markerTimes, if_pos h]

/-- Witness for C8 at `intervalMs = 0`. -/
theorem markerTimes_nil_of_nonpos_interval_witness :
    markerTimes 0 0 1000 5000 = [] :=
  markerTimes_nil_of_nonpos_interval 0 0 1000 5000 (by norm_num)

/-! ### Normalizer output invariants -/

/-- C9: for `totalMs ≥ 1` (so `safeMinDurationMs = min(1, totalMs) = 1`), the
normalization step always emits a region of length at least the safe minimum
whose start lies in `[0, totalMs - safeMinDurationMs]`. -/
theorem normalizeRegion_invariant (startMs endMs totalMs : ℚ) (hT : 1 ≤ totalMs) :
    safeMinDuration 1 totalMs ≤
        (normalizeRegion startMs endMs totalMs (safeMinDuration 1 totalMs)).2 -
          (normalizeRegion startMs endMs totalMs (safeMinDuration 1 totalMs)).1 ∧
      0 ≤ (normalizeRegion startMs endMs totalMs (safeMinDuration 1 totalMs)).1 ∧
        (normalizeRegion startMs endMs totalMs (safeMinDuration 1 totalMs)).1 ≤
          totalMs - safeMinDuration 1 totalMs := by
  have hm : safeMinDuration 1 totalMs = 1 := by
    rw [safeMinDuration, if_pos (by linarith), jsMin_eq]
    exact min_eq_left hT
  rw [hm]
  simp only [normalizeRegion, jsMax_eq, jsMin_eq]
  have h0 : (0 : ℚ) ≤ max 0 (min startMs totalMs) := le_max_left _ _
  have h1 : max 0 (min (max 0 (min startMs totalMs)) (totalMs - 1)) ≤
      max 0 (min startMs totalMs) := max_le h0 (min_le_left _ _)
  have h2 : max 0 (min (max 0 (min startMs totalMs)) (totalMs - 1)) ≤ totalMs - 1 :=
    max_le (by linarith) (min_le_right _ _)
  have h3 : max 0 (min startMs totalMs) + 1 ≤
      max (max 0 (min startMs totalMs) + 1)
        (min (min totalMs (max (max 0 (min startMs totalMs) + 1) endMs)) totalMs) :=
    le_max_left _ _
  exact ⟨by linarith, le_max_left _ _, h2⟩

/-- Witness for C9 at Scenario 5's inputs. -/
theorem normalizeRegion_invariant_witness :
    safeMinDuration 1 3000 ≤
        (normalizeRegion 5000 8000 3000 (safeMinDuration 1 3000)).2 -
          (normalizeRegion 5000 8000 3000 (safeMinDuration 1 3000)).1 ∧
      0 ≤ (normalizeRegion 5000 8000 3000 (safeMinDuration 1 3000)).1 ∧
        (normalizeRegion 5000 8000 3000 (safeMinDuration 1 3000)).1 ≤
          3000 - safeMinDuration 1 3000 :=
  normalizeRegion_invariant 5000 8000 3000 (by norm_num)

/-! ### Scale selection is monotone in the duration -/

/-- For a measure `m`, a weaker predicate `p` finds an element no larger (in
measure) than a stronger predicate `q` does, on a list sorted by `m` whose
elements stay below the default. -/
theorem find_getD_measure_mono {α : Type} (m : α → ℚ) (dflt : α) (p q : α → Bool) :
    ∀ l : List α, (∀ c ∈ l, q c = true → p c = true) →
      l.Pairwise (fun x y => m x ≤ m y) → (∀ c ∈ l, m c ≤ m dflt) →
      m ((l.find? p).getD dflt) ≤ m ((l.find? q).getD dflt)
  | [], _, _, _ => le_refl _
  | a :: t, hpq, hpw, hd => by
    by_cases hq : q a = true
    · have hp : p a = true := hpq a (List.mem_cons_self a t) hq
      rw [List.find?_cons_of_pos _ hp, List.find?_cons_of_pos _ hq]
    · by_cases hp : p a = true
      · rw [List.find?_cons_of_pos _ hp,
          List.find?_cons_of_neg _ (Bool.not_eq_true _ ▸ hq)]
        simp only [Option.getD_some]
        cases hfq : t.find? q with
        | none => simpa [hfq] using hd a (List.mem_cons_self a t)
        | some c =>
          have hc : c ∈ t := List.mem_of_find?_eq_some hfq
          have := (List.pairwise_cons.mp hpw).1 c hc
          simpa [hfq]
      · rw [List.find?_cons_of_neg _ (Bool.not_eq_true _ ▸ hp),
          List.find?_cons_of_neg _ (Bool.not_eq_true _ ▸ hq)]
        exact find_getD_measure_mono m dflt p q t
          (fun c hc => hpq c (List.mem_cons_of_mem _ hc))
          (List.pairwise_cons.mp hpw).2
          (fun c hc => hd c (List.mem_cons_of_mem _ hc))

theorem SCALE_CANDIDATES_sorted :
    SCALE_CANDIDATES.Pairwise (fun x y : ℚ × ℚ => x.1 ≤ y.1) := by decide

theorem SCALE_CANDIDATES_le_default : ∀ c ∈ SCALE_CANDIDATES, c.1 ≤ (3600 : ℚ) := by
  decide

theorem SCALE_CANDIDATES_pos : ∀ c ∈ SCALE_CANDIDATES, (0 : ℚ) < c.1 := by decide

theorem candidateOk_antitone {d1 d2 : ℚ} (h : d1 < d2) :
    ∀ c ∈ SCALE_CANDIDATES, candidateOk d2 c = true → candidateOk d1 c = true := by
  intro c hc h2
  by_cases h1 : d1 ≤ 0
  · simp [candidateOk, h1]
  · have hd2 : ¬d2 ≤ 0 := by linarith
    rw [candidateOk, if_neg hd2] at h2
    rw [candidateOk, if_neg h1]
    have hpos := SCALE_CANDIDATES_pos c hc
    simp only [decide_eq_true_eq] at h2 ⊢
    calc d1 / c.1 ≤ d2 / c.1 := div_le_div_of_nonneg_right h.le hpos.le
      _ ≤ TARGET_MARKER_COUNT := h2

theorem selectedCandidate_mono {d1 d2 : ℚ} (h : d1 < d2) :
    (selectedCandidate d1).1 ≤ (selectedCandidate d2).1 :=
  find_getD_measure_mono (fun c => c.1) (3600, 300) _ _ SCALE_CANDIDATES
    (candidateOk_antitone h) SCALE_CANDIDATES_sorted SCALE_CANDIDATES_le_default

/-- C5: the selected `intervalMs` is monotone non-decreasing in the duration. -/
theorem calculateTimelineScale_intervalMs_mono {d1 d2 : ℚ} (h : d1 < d2) :
    (calculateTimelineScale d1).intervalMs ≤ (calculateTimelineScale d2).intervalMs := by
  simp only [calculateTimelineScale]
  exact jsRound_mono (mul_le_mul_of_nonneg_right (selectedCandidate_mono h) (by norm_num))

/-- Witness for C5 at durations 10 s and 3600 s. -/
theorem calculateTimelineScale_intervalMs_mono_witness :
    (calculateTimelineScale 10).intervalMs ≤ (calculateTimelineScale 3600).intervalMs :=
  calculateTimelineScale_intervalMs_mono (by norm_num)

/-! ### Placement correctness -/

theorem scanStartPos_le (dd : ℚ) : ∀ (l : List ZoomRegion) (p : ℚ),
    p ≤ scanStartPos dd p l
  | [], p => le_refl p
  | a :: t, p => by
    by_cases hbr : p + dd ≤ a.startMs
    · simp only [scanStartPos, if_pos hbr]
      exact le_refl p
    · simp only [scanStartPos, if_neg hbr]
      calc p ≤ jsMax p a.endMs := by rw [jsMax_eq]; exact le_max_left _ _
        _ ≤ scanStartPos dd (jsMax p a.endMs) t := scanStartPos_le dd t _

/-- Walking a `startMs`-sorted region list, the scan result leaves every
region either entirely after the candidate slot or entirely before it. -/
theorem scanStartPos_avoids (dd : ℚ) :
    ∀ (l : List ZoomRegion) (p : ℚ), l.Pairwise regionLE →
      ∀ r ∈ l, scanStartPos dd p l + dd ≤ r.startMs ∨ r.endMs ≤ scanStartPos dd p l
  | [], _, _, r, hr => absurd hr (List.not_mem_nil r)
  | a :: t, p, hpw, r, hr => by
    by_cases hbr : p + dd ≤ a.startMs
    · simp only [scanStartPos, if_pos hbr]
      rcases List.mem_cons.mp hr with rfl | hrt
      · exact Or.inl hbr
      · refine Or.inl ?_
        have har : regionLE a r := (List.pairwise_cons.mp hpw).1 r hrt
        calc p + dd ≤ a.startMs := hbr
          _ ≤ r.startMs := har
    · simp only [scanStartPos, if_neg hbr]
      rcases List.mem_cons.mp hr with rfl | hrt
      · refine Or.inr ?_
        calc r.endMs ≤ jsMax p r.endMs := by rw [jsMax_eq]; exact le_max_right _ _
          _ ≤ scanStartPos dd (jsMax p r.endMs) t := scanStartPos_le dd t _
      · exact scanStartPos_avoids dd t (jsMax p a.endMs)
          (List.pairwise_cons.mp hpw).2 r hrt

/-- C3: whenever the placement scan emits a span, that span ends within the
video and does not overlap any existing region (intervals touching only at a
boundary do not count as overlapping). -/
theorem handleAddZoom_correct (videoDuration : ℚ) (zoomRegions : List ZoomRegion)
    (sp : Span) (h : handleAddZoom videoDuration zoomRegions = some sp) :
    sp.stop ≤ totalMsOf videoDuration ∧
      ∀ r ∈ zoomRegions, sp.stop ≤ r.startMs ∨ r.endMs ≤ sp.start := by
  simp only [handleAddZoom] at h
  split_ifs at h with h1 h2 h3
  rw [Option.some.injEq] at h
  subst h
  push_neg at h3
  refine ⟨h3, fun r hr => ?_⟩
  have hr' : r ∈ sortByStart zoomRegions :=
    ((List.perm_insertionSort regionLE zoomRegions).mem_iff).mpr hr
  exact scanStartPos_avoids _ (sortByStart zoomRegions) 0
    (List.sorted_insertionSort regionLE zoomRegions) r hr'

/-- Witness for C3: with one region `{0, 1000}` in a 10 s video, the scan
emits `{1000, 4000}`, which fits before the end and overlaps nothing. -/
theorem handleAddZoom_correct_witness :
    (⟨1000, 4000⟩ : Span).stop ≤ totalMsOf 10 ∧
      ((⟨1000, 4000⟩ : Span).stop ≤ (⟨"a", 0, 1000⟩ : ZoomRegion).startMs ∨
        (⟨"a", 0, 1000⟩ : ZoomRegion).endMs ≤ (⟨1000, 4000⟩ : Span).start) := by
  have h := handleAddZoom_correct 10 [⟨"a", 0, 1000⟩] ⟨1000, 4000⟩ (by decide)
  exact ⟨h.1, h.2 _ (List.mem_singleton_self _)⟩

/-! ### Marker generator: ordering and bounds -/

theorem sorted_lt_sortedMarkerList (l : List ℚ) (p : ℚ → Bool) :
    (List.insertionSort (· ≤ ·) (l.dedup.filter p)).Sorted (· < ·) := by
  have hnd : (l.dedup.filter p).Nodup := (List.nodup_dedup l).filter p
  have hnd' : (List.insertionSort (· ≤ ·) (l.dedup.filter p)).Nodup :=
    ((List.perm_insertionSort _ _).nodup_iff).mpr hnd
  exact (List.sorted_insertionSort _ _).lt_of_le hnd'

theorem mem_sortedMarkerList {l : List ℚ} {p : ℚ → Bool} {t : ℚ} :
    t ∈ List.insertionSort (· ≤ ·) (l.dedup.filter p) ↔ t ∈ l ∧ p t = true := by
  rw [(List.perm_insertionSort _ _).mem_iff, List.mem_filter, List.mem_dedup]

theorem markerVisibleStart_le_maxTime (rangeStart rangeEnd videoDurationMs : ℚ)
    (h : 0 ≤ markerMaxTime videoDurationMs rangeEnd) :
    markerVisibleStart rangeStart rangeEnd videoDurationMs ≤
      markerMaxTime videoDurationMs rangeEnd := by
  rw [markerVisibleStart, jsMax_eq, jsMin_eq]
  exact max_le h (min_le_right _ _)

/-- C4 (amended): for a positive `intervalMs` the marker times are strictly
ascending (hence duplicate-free), and every emitted time lies in
`[jsRound visibleStart, maxTime]`. The upper bound is `maxTime`, not
`min(range.end, maxTime)`: the video end is force-included even when it lies
beyond the visible range. -/
theorem markerTimes_sorted_and_bounded
    (intervalMs rangeStart rangeEnd videoDurationMs : ℚ) (hI : 0 < intervalMs) :
    (markerTimes intervalMs rangeStart rangeEnd videoDurationMs).Sorted (· < ·) ∧
      ∀ t ∈ markerTimes intervalMs rangeStart rangeEnd videoDurationMs,
        jsRound (markerVisibleStart rangeStart rangeEnd videoDurationMs) ≤ t ∧
          t ≤ markerMaxTime videoDurationMs rangeEnd := by
  have hI' : ¬intervalMs ≤ 0 := not_le.mpr hI
  constructor
  · rw [markerTimes, if_neg hI']
    exact sorted_lt_sortedMarkerList _ _
  · intro t ht
    rw [markerTimes, if_neg hI', mem_sortedMarkerList] at ht
    obtain ⟨hmem, hle⟩ := ht
    rw [decide_eq_true_eq] at hle
    refine ⟨?_, hle⟩
    have hfilter : ∀ u ∈ (markerLoopTimes intervalMs
        (((jsCeil (markerVisibleStart rangeStart rangeEnd videoDurationMs / intervalMs) : ℤ) : ℚ)
          * intervalMs) (markerMaxTime videoDurationMs rangeEnd)).filter
          (fun u => decide (markerVisibleStart rangeStart rangeEnd videoDurationMs ≤ u ∧
            u ≤ jsMin rangeEnd (markerMaxTime videoDurationMs rangeEnd))),
        jsRound (markerVisibleStart rangeStart rangeEnd videoDurationMs) ≤ jsRound u := by
      intro u hu
      have := (List.mem_filter.mp hu).2
      rw [decide_eq_true_eq] at this
      exact jsRound_mono this.1
    by_cases hv : 0 < videoDurationMs
    · rw [if_pos hv] at hmem
      rcases List.mem_append.mp hmem with hmem | hmem
      · by_cases hsm : markerVisibleStart rangeStart rangeEnd videoDurationMs ≤
            markerMaxTime videoDurationMs rangeEnd
        · rw [if_pos hsm] at hmem
          rcases List.mem_append.mp hmem with hmem | hmem
          · obtain ⟨u, hu, rfl⟩ := List.mem_map.mp hmem
            exact hfilter u hu
          · rw [List.mem_singleton.mp hmem]
        · rw [if_neg hsm] at hmem
          obtain ⟨u, hu, rfl⟩ := List.mem_map.mp hmem
          exact hfilter u hu
      · rw [List.mem_singleton.mp hmem]
        have h0 : (0 : ℚ) ≤ markerMaxTime videoDurationMs rangeEnd := by
          rw [markerMaxTime, if_pos hv]; exact hv.le
        have := markerVisibleStart_le_maxTime rangeStart rangeEnd videoDurationMs h0
        rw [markerMaxTime, if_pos hv] at this
        exact jsRound_mono this
    · rw [if_neg hv] at hmem
      by_cases hsm : markerVisibleStart rangeStart rangeEnd videoDurationMs ≤
          markerMaxTime videoDurationMs rangeEnd
      · rw [if_pos hsm] at hmem
        rcases List.mem_append.mp hmem with hmem | hmem
        · obtain ⟨u, hu, rfl⟩ := List.mem_map.mp hmem
          exact hfilter u hu
        · rw [List.mem_singleton.mp hmem]
      · rw [if_neg hsm] at hmem
        obtain ⟨u, hu, rfl⟩ := List.mem_map.mp hmem
        exact hfilter u hu

/-- Witness for the amended C4 at `intervalMs = 100`, range `{0, 50}`,
`videoDurationMs = 100`. -/
theorem markerTimes_sorted_and_bounded_witness :
    jsRound (markerVisibleStart 0 50 100) ≤ 100 ∧ (100 : ℚ) ≤ markerMaxTime 100 50 := by
  have h := markerTimes_sorted_and_bounded 100 0 50 100 (by norm_num)
  have h100 := h.2 100 (by decide)
  exact ⟨h100.1, h100.2⟩

/-- C4 counterexample: with `intervalMs = 100`, visible range `{0, 50}` and
`videoDurationMs = 100`, the output contains the time 100, which exceeds
`min(range.end, maxTime) = 50` — the claimed restriction of the output to
`[visibleStart, min(range.end, maxTime)]` is false. -/
theorem markerTimes_exceeds_visible_end :
    (100 : ℚ) ∈ markerTimes 100 0 50 100 ∧
      jsMin 50 (markerMaxTime 100 50) < 100 := by decide

/-! ### Label formatter: reduction of the components to integer arithmetic -/

theorem jsFloor_int_div (n : ℤ) (d : ℕ) : jsFloor ((n : ℚ) / (d : ℚ)) = n / (d : ℤ) := by
  rw [jsFloor_eq]
  exact_mod_cast Rat.floor_intCast_div_natCast n d

theorem jsTrunc_of_nonneg {q : ℚ} (h : 0 ≤ q) : jsTrunc q = jsFloor q := by
  rw [jsTrunc, if_pos h]

theorem jsMod_3600 (x : ℤ) (hx : 0 ≤ x) :
    jsMod ((x : ℚ) / 1000) 3600 = ((x % 3600000 : ℤ) : ℚ) / 1000 := by
  have hx' : (0 : ℚ) ≤ (x : ℚ) := by exact_mod_cast hx
  have harg : (0 : ℚ) ≤ (x : ℚ) / 1000 / 3600 :=
    div_nonneg (div_nonneg hx' (by norm_num)) (by norm_num)
  rw [jsMod, jsTrunc_of_nonneg harg,
    show (x : ℚ) / 1000 / 3600 = (x : ℚ) / ((3600000 : ℕ) : ℚ) by push_cast; ring,
    jsFloor_int_div]
  push_cast [Int.emod_def]
  ring

theorem jsMod_60 (x : ℤ) (hx : 0 ≤ x) :
    jsMod ((x : ℚ) / 1000) 60 = ((x % 60000 : ℤ) : ℚ) / 1000 := by
  have hx' : (0 : ℚ) ≤ (x : ℚ) := by exact_mod_cast hx
  have harg : (0 : ℚ) ≤ (x : ℚ) / 1000 / 60 :=
    div_nonneg (div_nonneg hx' (by norm_num)) (by norm_num)
  rw [jsMod, jsTrunc_of_nonneg harg,
    show (x : ℚ) / 1000 / 60 = (x : ℚ) / ((60000 : ℕ) : ℚ) by push_cast; ring,
    jsFloor_int_div]
  push_cast [Int.emod_def]
  ring

theorem label_hours (x : ℤ) : jsFloor ((x : ℚ) / 1000 / 3600) = x / 3600000 := by
  rw [show (x : ℚ) / 1000 / 3600 = (x : ℚ) / ((3600000 : ℕ) : ℚ) by push_cast; ring,
    jsFloor_int_div]
  norm_num

theorem label_bucket (x : ℤ) : jsFloor ((x : ℚ) / 3600000) = x / 3600000 := by
  rw [show (x : ℚ) / 3600000 = (x : ℚ) / ((3600000 : ℕ) : ℚ) by push_cast; ring,
    jsFloor_int_div]
  norm_num

theorem label_minutes (x : ℤ) (hx : 0 ≤ x) :
    jsFloor (jsMod ((x : ℚ) / 1000) 3600 / 60) = (x % 3600000) / 60000 := by
  rw [jsMod_3600 x hx,
    show ((x % 3600000 : ℤ) : ℚ) / 1000 / 60 =
      ((x % 3600000 : ℤ) : ℚ) / ((60000 : ℕ) : ℚ) by push_cast; ring,
    jsFloor_int_div]
  norm_num

theorem label_secfloor (x : ℤ) (hx : 0 ≤ x) :
    jsFloor (jsMod ((x : ℚ) / 1000) 60) = (x % 60000) / 1000 := by
  rw [jsMod_60 x hx,
    show ((x % 60000 : ℤ) : ℚ) / 1000 = ((x % 60000 : ℤ) : ℚ) / ((1000 : ℕ) : ℚ) by
      norm_num,
    jsFloor_int_div]
  norm_num

theorem label_tofixed1 (x : ℤ) (hx : 0 ≤ x) :
    jsToFixedNum (jsMod ((x : ℚ) / 1000) 60) 1 = (x % 60000 + 50) / 100 := by
  rw [jsToFixedNum, jsMod_60 x hx,
    show ((x % 60000 : ℤ) : ℚ) / 1000 * 10 ^ (1 : ℕ) + 1 / 2 =
      ((x % 60000 + 50 : ℤ) : ℚ) / ((100 : ℕ) : ℚ) by push_cast; ring,
    jsFloor_int_div]
  norm_num

theorem label_tofixed2 (x : ℤ) (hx : 0 ≤ x) :
    jsToFixedNum (jsMod ((x : ℚ) / 1000) 60) 2 = (x % 60000 + 5) / 10 := by
  rw [jsToFixedNum, jsMod_60 x hx,
    show ((x % 60000 : ℤ) : ℚ) / 1000 * 10 ^ (2 : ℕ) + 1 / 2 =
      ((x % 60000 + 5 : ℤ) : ℚ) / ((10 : ℕ) : ℚ) by push_cast; ring,
    jsFloor_int_div]
  norm_num

/-! ### Shortlex order: composition lemmas -/

theorem lexLe_refl : ∀ l : List Char, lexLe l l
  | [] => trivial
  | _ :: as => Or.inr ⟨rfl, lexLe_refl as⟩

theorem lexLe_append : ∀ (u p : List Char), u.length = p.length → lexLe u p →
    ∀ (v w : List Char), (u = p → lexLe v w) → lexLe (u ++ v) (p ++ w)
  | [], [], _, _, _, _, himp => himp rfl
  | [], _ :: _, h, _, _, _, _ => absurd h (by simp)
  | _ :: _, [], h, _, _, _, _ => absurd h (by simp)
  | a :: as, b :: bs, hlen, hu, v, w, himp => by
    rcases hu with hlt | ⟨heq, hrest⟩
    · exact Or.inl hlt
    · subst heq
      exact Or.inr ⟨rfl, lexLe_append as bs (by simpa using hlen) hrest v w
        (fun h => himp (by rw [h]))⟩

theorem lexLe_append_eq (u : List Char) {v w : List Char} (h : lexLe v w) :
    lexLe (u ++ v) (u ++ w) :=
  lexLe_append u u rfl (lexLe_refl u) v w (fun _ => h)

theorem colon_data : (":" : String).data = [':'] := rfl

theorem dot_data : ("." : String).data = ['.'] := rfl

theorem shortlexLe_iff (s t : String) : shortlexLe s t ↔ shortlexData s.data t.data :=
  Iff.rfl

/-! ### Decidable facts about rendered two-digit fields -/

theorem padTwo_len : ∀ k : ℕ, k < 61 →
    (jsPadTo (toString (k : ℤ)) 2 zeroChar).data.length = 2 := by decide

theorem padTwo_mono : ∀ k : ℕ, k < 61 → ∀ j : ℕ, j < 61 → k ≤ j →
    lexLe (jsPadTo (toString (k : ℤ)) 2 zeroChar).data
      (jsPadTo (toString (j : ℤ)) 2 zeroChar).data := by decide

theorem padTwo_inj : ∀ k : ℕ, k < 61 → ∀ j : ℕ, j < 61 →
    (jsPadTo (toString (k : ℤ)) 2 zeroChar).data =
      (jsPadTo (toString (j : ℤ)) 2 zeroChar).data → k = j := by decide

theorem minuteStr_len : ∀ k : ℕ, k < 60 →
    (toString (k : ℤ)).data.length = if k < 10 then 1 else 2 := by decide

theorem minuteStr_mono : ∀ k : ℕ, k < 60 → ∀ j : ℕ, j < 60 → k ≤ j →
    (toString (k : ℤ)).data.length = (toString (j : ℤ)).data.length →
    lexLe (toString (k : ℤ)).data (toString (j : ℤ)).data := by decide

theorem minuteStr_inj : ∀ k : ℕ, k < 60 → ∀ j : ℕ, j < 60 →
    (toString (k : ℤ)).data = (toString (j : ℤ)).data → k = j := by decide

theorem fracOne_len : ∀ k : ℕ, k < 10 →
    (padZeros 1 (k : ℤ)).data.length = 1 := by decide

theorem fracOne_mono : ∀ k : ℕ, k < 10 → ∀ j : ℕ, j < 10 → k ≤ j →
    lexLe (padZeros 1 (k : ℤ)).data (padZeros 1 (j : ℤ)).data := by decide

theorem fracTwo_len : ∀ k : ℕ, k < 100 →
    (padZeros 2 (k : ℤ)).data.length = 2 := by decide

set_option maxRecDepth 40000 in
theorem fracTwo_mono : ∀ k : ℕ, k < 100 → ∀ j : ℕ, j < 100 → k ≤ j →
    lexLe (padZeros 2 (k : ℤ)).data (padZeros 2 (j : ℤ)).data := by decide

/-! ### The same facts for integer-valued fields -/

theorem padTwo_len_int {z : ℤ} (h0 : 0 ≤ z) (h1 : z ≤ 60) :
    (jsPadTo (toString z) 2 zeroChar).data.length = 2 := by
  rw [← Int.toNat_of_nonneg h0]
  exact padTwo_len z.toNat (by omega)

theorem padTwo_mono_int {y z : ℤ} (h0 : 0 ≤ y) (h1 : z ≤ 60) (hyz : y ≤ z) :
    lexLe (jsPadTo (toString y) 2 zeroChar).data
      (jsPadTo (toString z) 2 zeroChar).data := by
  rw [← Int.toNat_of_nonneg h0, ← Int.toNat_of_nonneg (le_trans h0 hyz)]
  exact padTwo_mono y.toNat (by omega) z.toNat (by omega) (by omega)

theorem padTwo_inj_int {y z : ℤ} (h0y : 0 ≤ y) (h1y : y ≤ 60) (h0z : 0 ≤ z) (h1z : z ≤ 60)
    (h : (jsPadTo (toString y) 2 zeroChar).data = (jsPadTo (toString z) 2 zeroChar).data) :
    y = z := by
  rw [← Int.toNat_of_nonneg h0y, ← Int.toNat_of_nonneg h0z] at h
  have := padTwo_inj y.toNat (by omega) z.toNat (by omega) h
  omega

theorem minuteStr_len_int {z : ℤ} (h0 : 0 ≤ z) (h59 : z ≤ 59) :
    (toString z).data.length = if z < 10 then 1 else 2 := by
  by_cases h10 : z < 10
  · rw [if_pos h10, ← Int.toNat_of_nonneg h0]
    have := minuteStr_len z.toNat (by omega)
    rwa [if_pos (by omega)] at this
  · rw [if_neg h10, ← Int.toNat_of_nonneg h0]
    have := minuteStr_len z.toNat (by omega)
    rwa [if_neg (by omega)] at this

theorem minuteStr_mono_int {y z : ℤ} (h0 : 0 ≤ y) (h59 : z ≤ 59) (hyz : y ≤ z)
    (hlen : (toString y).data.length = (toString z).data.length) :
    lexLe (toString y).data (toString z).data := by
  rw [← Int.toNat_of_nonneg h0, ← Int.toNat_of_nonneg (le_trans h0 hyz)] at hlen ⊢
  exact minuteStr_mono y.toNat (by omega) z.toNat (by omega) (by omega) hlen

theorem minuteStr_inj_int {y z : ℤ} (h0y : 0 ≤ y) (h59y : y ≤ 59) (h0z : 0 ≤ z) (h59z : z ≤ 59)
    (h : (toString y).data = (toString z).data) : y = z := by
  rw [← Int.toNat_of_nonneg h0y, ← Int.toNat_of_nonneg h0z] at h
  have := minuteStr_inj y.toNat (by omega) z.toNat (by omega) h
  omega

theorem fracOne_len_int {z : ℤ} (h0 : 0 ≤ z) (h9 : z ≤ 9) :
    (padZeros 1 z).data.length = 1 := by
  rw [← Int.toNat_of_nonneg h0]
  exact fracOne_len z.toNat (by omega)

theorem fracOne_mono_int {y z : ℤ} (h0 : 0 ≤ y) (h9 : z ≤ 9) (hyz : y ≤ z) :
    lexLe (padZeros 1 y).data (padZeros 1 z).data := by
  rw [← Int.toNat_of_nonneg h0, ← Int.toNat_of_nonneg (le_trans h0 hyz)]
  exact fracOne_mono y.toNat (by omega) z.toNat (by omega) (by omega)

theorem fracTwo_len_int {z : ℤ} (h0 : 0 ≤ z) (h99 : z ≤ 99) :
    (padZeros 2 z).data.length = 2 := by
  rw [← Int.toNat_of_nonneg h0]
  exact fracTwo_len z.toNat (by omega)

theorem fracTwo_mono_int {y z : ℤ} (h0 : 0 ≤ y) (h99 : z ≤ 99) (hyz : y ≤ z) :
    lexLe (padZeros 2 y).data (padZeros 2 z).data := by
  rw [← Int.toNat_of_nonneg h0, ← Int.toNat_of_nonneg (le_trans h0 hyz)]
  exact fracTwo_mono y.toNat (by omega) z.toNat (by omega) (by omega)

/-- Shortlex comparison of two labels that start with an unpadded minutes
field: either the minute strings have different digit counts (shorter wins),
or they compare lexicographically; equal minutes defer to the suffixes. -/
theorem shortlexData_minuteBlock {ma mb : ℤ} (h0a : 0 ≤ ma) (h59a : ma ≤ 59)
    (h0b : 0 ≤ mb) (h59b : mb ≤ 59) (hm : ma ≤ mb)
    {ta tb : List Char} (hlen : ta.length = tb.length)
    (himp : ma = mb → lexLe ta tb) :
    shortlexData ((toString ma).data ++ ta) ((toString mb).data ++ tb) := by
  rcases eq_or_lt_of_le hm with heq | hlt
  · subst heq
    exact Or.inr ⟨by simp [hlen], lexLe_append_eq _ (himp rfl)⟩
  · have hla := minuteStr_len_int h0a h59a
    have hlb := minuteStr_len_int h0b h59b
    by_cases h10a : ma < 10 <;> by_cases h10b : mb < 10
    · refine Or.inr ⟨?_, ?_⟩
      · rw [List.length_append, List.length_append, hla, hlb, if_pos h10a,
          if_pos h10b, hlen]
      · refine lexLe_append _ _ ?_ (minuteStr_mono_int h0a h59b hm ?_) ta tb
          (fun heq => absurd (minuteStr_inj_int h0a h59a h0b h59b heq) (by omega))
        · rw [hla, hlb, if_pos h10a, if_pos h10b]
        · rw [hla, hlb, if_pos h10a, if_pos h10b]
    · refine Or.inl ?_
      rw [List.length_append, List.length_append, hla, hlb, if_pos h10a,
        if_neg h10b, hlen]
      omega
    · exact absurd hlt (by omega)
    · refine Or.inr ⟨?_, ?_⟩
      · rw [List.length_append, List.length_append, hla, hlb, if_neg h10a,
          if_neg h10b, hlen]
      · refine lexLe_append _ _ ?_ (minuteStr_mono_int h0a h59b hm ?_) ta tb
          (fun heq => absurd (minuteStr_inj_int h0a h59a h0b h59b heq) (by omega))
        · rw [hla, hlb, if_neg h10a, if_neg h10b]
        · rw [hla, hlb, if_neg h10a, if_neg h10b]

/-- C6 (amended): at a fixed `intervalMs`, for non-negative integer
millisecond inputs in the same hour bucket, the rendered labels are monotone
non-decreasing in shortlex (length-then-lexicographic) order, which on these
labels coincides with the temporal order of the displayed timestamps. -/
theorem formatTimeLabel_shortlex_mono (intervalMs : ℚ) (a b : ℤ)
    (_hI : 0 < intervalMs) (ha : 0 ≤ a) (hab : a < b)
    (hbucket : jsFloor ((a : ℚ) / 3600000) = jsFloor ((b : ℚ) / 3600000)) :
    shortlexLe (formatTimeLabel (a : ℚ) intervalMs) (formatTimeLabel (b : ℚ) intervalMs) := by
  have hb : 0 ≤ b := le_of_lt (lt_of_le_of_lt ha hab)
  rw [label_bucket a, label_bucket b] at hbucket
  rw [shortlexLe_iff]
  simp only [formatTimeLabel]
  rw [label_hours a, label_hours b, label_minutes a ha, label_minutes b hb,
    label_secfloor a ha, label_secfloor b hb]
  have hmod_a : a % 60000 = a % 3600000 % 60000 :=
    (Int.emod_emod_of_dvd a (by norm_num)).symm
  have hmod_b : b % 60000 = b % 3600000 % 60000 :=
    (Int.emod_emod_of_dvd b (by norm_num)).symm
  have hm0a : 0 ≤ a % 3600000 / 60000 := by omega
  have hm59a : a % 3600000 / 60000 ≤ 59 := by omega
  have hm0b : 0 ≤ b % 3600000 / 60000 := by omega
  have hm59b : b % 3600000 / 60000 ≤ 59 := by omega
  have hmm : a % 3600000 / 60000 ≤ b % 3600000 / 60000 := by omega
  have hs0a : 0 ≤ a % 60000 / 1000 := by omega
  have hs0b : 0 ≤ b % 60000 / 1000 := by omega
  have hsec : a % 3600000 / 60000 = b % 3600000 / 60000 →
      a % 60000 / 1000 ≤ b % 60000 / 1000 := by omega
  by_cases hH : 0 < a / 3600000
  · rw [if_pos hH, if_pos (show 0 < b / 3600000 from hbucket ▸ hH), ← hbucket]
    refine Or.inr ⟨?_, ?_⟩
    · simp only [String.data_append, colon_data, List.append_assoc,
        List.singleton_append, List.length_append, List.length_cons,
        padTwo_len_int hm0a (by omega), padTwo_len_int hm0b (by omega),
        padTwo_len_int hs0a (by omega), padTwo_len_int hs0b (by omega)]
    · simp only [String.data_append, colon_data, List.append_assoc,
        List.singleton_append]
      refine lexLe_append_eq _ ?_
      refine Or.inr ⟨rfl, ?_⟩
      refine lexLe_append _ _ ?_ (padTwo_mono_int hm0a (by omega) hmm) _ _ ?_
      · rw [padTwo_len_int hm0a (by omega), padTwo_len_int hm0b (by omega)]
      · intro heq
        have hmeq := padTwo_inj_int hm0a (by omega) hm0b (by omega) heq
        exact Or.inr ⟨rfl, padTwo_mono_int hs0a (by omega) (hsec hmeq)⟩
  · rw [if_neg hH, if_neg (show ¬0 < b / 3600000 from hbucket ▸ hH)]
    rcases lt_or_le intervalMs 250 with hI2 | hI2
    · have hf : fractionalDigitsFor intervalMs = 2 := by
        rw [fractionalDigitsFor, if_pos hI2]
      rw [hf, if_pos (by norm_num : (0 : ℕ) < 2), if_pos (by norm_num : (0 : ℕ) < 2),
        label_tofixed2 a ha, label_tofixed2 b hb,
        show ((10 : ℤ) ^ (2 : ℕ)) = 100 by norm_num]
      set na := (a % 60000 + 5) / 10 with hna
      set nb := (b % 60000 + 5) / 10 with hnb
      have hw0a : 0 ≤ na / 100 := by omega
      have hw60a : na / 100 ≤ 60 := by omega
      have hw0b : 0 ≤ nb / 100 := by omega
      have hw60b : nb / 100 ≤ 60 := by omega
      have hfr0a : 0 ≤ na % 100 := by omega
      have hfr99a : na % 100 ≤ 99 := by omega
      have hfr0b : 0 ≤ nb % 100 := by omega
      have hfr99b : nb % 100 ≤ 99 := by omega
      have hnm : a % 3600000 / 60000 = b % 3600000 / 60000 → na ≤ nb := by omega
      simp only [String.data_append, colon_data, dot_data, List.append_assoc,
        List.singleton_append]
      refine shortlexData_minuteBlock hm0a hm59a hm0b hm59b hmm ?_ ?_
      · simp only [List.length_cons, List.length_append,
          padTwo_len_int hw0a hw60a, padTwo_len_int hw0b hw60b,
          fracTwo_len_int hfr0a hfr99a, fracTwo_len_int hfr0b hfr99b]
      · intro hmeq
        refine Or.inr ⟨rfl, ?_⟩
        refine lexLe_append _ _ ?_
          (padTwo_mono_int hw0a hw60b (by have := hnm hmeq; omega)) _ _ ?_
        · rw [padTwo_len_int hw0a hw60a, padTwo_len_int hw0b hw60b]
        · intro heqW
          have hweq := padTwo_inj_int hw0a hw60a hw0b hw60b heqW
          refine Or.inr ⟨rfl, fracTwo_mono_int hfr0a hfr99b ?_⟩
          have := hnm hmeq
          omega
    · rcases lt_or_le intervalMs 1000 with hI3 | hI3
      · have hf : fractionalDigitsFor intervalMs = 1 := by
          rw [fractionalDigitsFor, if_neg (not_lt.mpr hI2), if_pos hI3]
        rw [hf, if_pos (by norm_num : (0 : ℕ) < 1), if_pos (by norm_num : (0 : ℕ) < 1),
          label_tofixed1 a ha, label_tofixed1 b hb,
          show ((10 : ℤ) ^ (1 : ℕ)) = 10 by norm_num]
        set na := (a % 60000 + 50) / 100 with hna
        set nb := (b % 60000 + 50) / 100 with hnb
        have hw0a : 0 ≤ na / 10 := by omega
        have hw60a : na / 10 ≤ 60 := by omega
        have hw0b : 0 ≤ nb / 10 := by omega
        have hw60b : nb / 10 ≤ 60 := by omega
        have hfr0a : 0 ≤ na % 10 := by omega
        have hfr9a : na % 10 ≤ 9 := by omega
        have hfr0b : 0 ≤ nb % 10 := by omega
        have hfr9b : nb % 10 ≤ 9 := by omega
        have hnm : a % 3600000 / 60000 = b % 3600000 / 60000 → na ≤ nb := by omega
        simp only [String.data_append, colon_data, dot_data, List.append_assoc,
          List.singleton_append]
        refine shortlexData_minuteBlock hm0a hm59a hm0b hm59b hmm ?_ ?_
        · simp only [List.length_cons, List.length_append,
            padTwo_len_int hw0a hw60a, padTwo_len_int hw0b hw60b,
            fracOne_len_int hfr0a hfr9a, fracOne_len_int hfr0b hfr9b]
        · intro hmeq
          refine Or.inr ⟨rfl, ?_⟩
          refine lexLe_append _ _ ?_
            (padTwo_mono_int hw0a hw60b (by have := hnm hmeq; omega)) _ _ ?_
          · rw [padTwo_len_int hw0a hw60a, padTwo_len_int hw0b hw60b]
          · intro heqW
            have hweq := padTwo_inj_int hw0a hw60a hw0b hw60b heqW
            refine Or.inr ⟨rfl, fracOne_mono_int hfr0a hfr9b ?_⟩
            have := hnm hmeq
            omega
      · have hf : fractionalDigitsFor intervalMs = 0 := by
          rw [fractionalDigitsFor, if_neg (not_lt.mpr hI2), if_neg (not_lt.mpr hI3)]
        rw [hf, if_neg (by norm_num : ¬(0 : ℕ) < 0), if_neg (by norm_num : ¬(0 : ℕ) < 0)]
        simp only [String.data_append, colon_data, List.append_assoc,
          List.singleton_append]
        refine shortlexData_minuteBlock hm0a hm59a hm0b hm59b hmm ?_ ?_
        · simp only [List.length_cons,
            padTwo_len_int hs0a (by omega : a % 60000 / 1000 ≤ 60),
            padTwo_len_int hs0b (by omega : b % 60000 / 1000 ≤ 60)]
        · intro hmeq
          exact Or.inr ⟨rfl, padTwo_mono_int hs0a (by omega) (hsec hmeq)⟩

/-- C6 counterexample: at `intervalMs = 1000`, the inputs 0 ms and 1 ms are
strictly increasing within the same hour bucket yet produce the SAME label
"0:00", so the label function is not strictly increasing. -/
theorem formatTimeLabel_not_strictly_increasing :
    (0 : ℤ) < 1 ∧ jsFloor ((0 : ℚ) / 3600000) = jsFloor ((1 : ℚ) / 3600000) ∧
      formatTimeLabel ((0 : ℤ) : ℚ) 1000 = formatTimeLabel ((1 : ℤ) : ℚ) 1000 := by
  decide

/-- Witness for the amended C6 at 0 ms and 61000 ms, interval 1000 ms. -/
theorem formatTimeLabel_shortlex_mono_witness :
    shortlexLe (formatTimeLabel ((0 : ℤ) : ℚ) 1000) (formatTimeLabel ((61000 : ℤ) : ℚ) 1000) :=
  formatTimeLabel_shortlex_mono 1000 0 61000 (by norm_num) (by norm_num)
    (by norm_num) (by decide)

end Timeline
